import Mathlib

/-!
Shallow embedding of `src/main.py`, a small multiplayer game: world model
(players, bullets), the per-tick physics update, the dump/load (snapshot)
operations, the client and server message handlers, the connection
registry, and the wire-level receive step.

Modelling conventions:
* pygame `Vector2` float components are modelled as rationals (`Vec2`);
* pygame `Rect` integer coordinates are modelled with `Int` (`RectZ`);
  assigning a float to a rect coordinate truncates toward zero (`truncQ`);
* the wall clock consumed by `Timer.update` is passed as an explicit
  per-call elapsed span `dt`;
* `math.sin`, `math.cos` and `math.radians` (external math library, used
  once to aim a spawned bullet) are abstracted as a parameter
  `trig : degrees to (sin of radians, cos of radians)`;
* the pickle wire format is modelled abstractly (`pdump`, `ploads`) as a
  self-delimiting encoding with the behaviour of `pickle.loads`: it parses
  the first complete message of the buffer and discards trailing bytes,
  raises `UnpicklingError` on an invalid opcode and `EOFError` when the
  buffer runs out before a full message was read (in particular on an
  empty buffer).
-/

namespace MP

/-- Two dimensional vector, modelling `pygame.math.Vector2`. -/
structure Vec2 where
  x : ℚ
  y : ℚ
  deriving DecidableEq, Repr

/-- Componentwise vector addition. -/
def Vec2.add (v w : Vec2) : Vec2 := ⟨v.x + w.x, v.y + w.y⟩

/-- Scalar multiple of a vector. -/
def Vec2.scale (c : ℚ) (v : Vec2) : Vec2 := ⟨c * v.x, c * v.y⟩

/-- The zero vector, `pygame.math.Vector2()`. -/
def Vec2.zero : Vec2 := ⟨0, 0⟩

/-- Truncation toward zero, the conversion Python `int()` applies when a
float is stored into a `pygame.Rect` coordinate. -/
def truncQ (q : ℚ) : ℤ := if 0 ≤ q then q.floor else q.ceil

/-- Axis-aligned rectangle with integer coordinates, modelling `pygame.Rect`. -/
structure RectZ where
  x : ℤ
  y : ℤ
  w : ℤ
  h : ℤ
  deriving DecidableEq, Repr

/-- Overlap test of `pygame.Rect.colliderect`: strict inequalities on all
four sides (shared edges do not collide). -/
def collideRect (a b : RectZ) : Bool :=
  decide (a.x < b.x + b.w) && decide (a.y < b.y + b.h) &&
  decide (b.x < a.x + a.w) && decide (b.y < a.y + a.h)

/-- Squared euclidean distance between two points.  The source computes
`sqrt(dx*dx + dy*dy)` and only ever compares it against the constant 500;
since both sides are nonnegative, `sqrt d > 500` holds exactly when
`d > 500 * 500`, so the embedding keeps the squared form. -/
def distSq (a c : Vec2) : ℚ :=
  (a.x - c.x) * (a.x - c.x) + (a.y - c.y) * (a.y - c.y)

/-- The `PlayerState` enum. -/
inductive PState where
  | CURRENT
  | ONLINE
  | OFFLINE
  | DEAD
  deriving DecidableEq, Repr

/-- The `Timer` class: `paused` flag and accumulated `time_elapsed`.  The
hidden wall-clock time point is replaced by the explicit span `dt` handed
to `Timer.update`. -/
structure Timer where
  paused : Bool
  time_elapsed : ℚ
  deriving DecidableEq, Repr

/-- Timer.update: accumulate the elapsed span while not paused. -/
def Timer.update (t : Timer) (dt : ℚ) : Timer :=
  if t.paused then t else { t with time_elapsed := t.time_elapsed + dt }

/-- Timer.stop: reset and pause. -/
def Timer.stop (_t : Timer) : Timer := { paused := true, time_elapsed := 0 }

/-- Timer.start: reset and resume. -/
def Timer.start (_t : Timer) : Timer := { paused := false, time_elapsed := 0 }

/-- The dictionary produced by `Player.dump_info` / consumed by
`Player.load_info`. -/
structure PlayerInfo where
  id : ℤ
  position : Vec2
  velocity : Vec2
  angle : ℚ
  state : PState
  attacking : Bool
  deriving DecidableEq, Repr

/-- The dictionary produced by `Bullet.dump_info` / consumed by
`Bullet.load_info`.  Note: no `start_position` entry. -/
structure BulletInfo where
  position : Vec2
  velocity : Vec2
  angle : ℚ
  destroyed : Bool
  owner_id : ℤ
  deriving DecidableEq, Repr

/-- The dictionary produced by `Game.dump_info` (a full world snapshot). -/
structure GameInfo where
  players : List PlayerInfo
  bullets : List BulletInfo
  deriving DecidableEq, Repr

/-- The `Player` class fields. -/
structure Player where
  id : ℤ
  position : Vec2
  velocity : Vec2
  angle : ℚ
  speed : ℚ
  state : PState
  rect : RectZ
  control_left : Bool
  control_right : Bool
  control_up : Bool
  control_down : Bool
  control_lmbutton : Bool
  attacking : Bool
  attack_cooldown : ℚ
  attack_timer : Timer
  deriving DecidableEq, Repr

/-- Player.__init__(id). -/
def newPlayer (i : ℤ) : Player :=
  { id := i
    position := Vec2.zero
    velocity := Vec2.zero
    angle := 0
    speed := 2
    state := PState.ONLINE
    rect := ⟨0, 0, 32, 32⟩
    control_left := false
    control_right := false
    control_up := false
    control_down := false
    control_lmbutton := false
    attacking := false
    attack_cooldown := 1/5
    attack_timer := { paused := true, time_elapsed := 0 } }

/-- Player.dump_info. -/
def Player.dump_info (p : Player) : PlayerInfo :=
  { id := p.id
    position := p.position
    velocity := p.velocity
    angle := p.angle
    state := p.state
    attacking := p.attacking }

/-- Player.load_info: overwrite exactly the dumped fields. -/
def Player.load_info (p : Player) (pi : PlayerInfo) : Player :=
  { p with
    id := pi.id
    position := pi.position
    velocity := pi.velocity
    angle := pi.angle
    state := pi.state
    attacking := pi.attacking }

/-- Rect produced by `self.rect.center = self.position` for the 32x32
player box: the assigned floats are truncated, then half the extent is
subtracted. -/
def playerRectAt (pos : Vec2) : RectZ :=
  ⟨truncQ pos.x - 16, truncQ pos.y - 16, 32, 32⟩

/-- Player.update: integrate position, refresh the rect, damp velocity,
advance the attack timer, handle the fire button, then let held movement
keys overwrite the corresponding velocity axis. -/
def Player.update (dt : ℚ) (p : Player) : Player :=
  let pos := p.position.add p.velocity
  let rect := playerRectAt pos
  let vel0 := Vec2.scale (9/10) p.velocity
  let t1 := p.attack_timer.update dt
  let t2 := if t1.time_elapsed > p.attack_cooldown then t1.stop else t1
  let fire : Bool × Timer :=
    if p.control_lmbutton then
      (if p.attacking = false ∧ t2.paused = true then (true, t2.start) else (false, t2))
    else (p.attacking, t2)
  let v1 := if p.control_left then { vel0 with x := -p.speed } else vel0
  let v2 := if p.control_right then { v1 with x := p.speed } else v1
  let v3 := if p.control_up then { v2 with y := -p.speed } else v2
  let v4 := if p.control_down then { v3 with y := p.speed } else v3
  { p with
    position := pos
    rect := rect
    velocity := v4
    attacking := fire.1
    attack_timer := fire.2 }

/-- Rect of a bullet at a given position: `Rect(x, y, 5, 5)`. -/
def bulletRect (pos : Vec2) : RectZ := ⟨truncQ pos.x, truncQ pos.y, 5, 5⟩

/-- The `Bullet` class fields. -/
structure Bullet where
  owner_id : ℤ
  position : Vec2
  velocity : Vec2
  angle : ℚ
  speed : ℚ
  rect : RectZ
  destroyed : Bool
  start_position : Vec2
  deriving DecidableEq, Repr

/-- Bullet.__init__(owner_id, position, velocity, angle): copies the given
vectors, sets speed 5, builds the rect at the position, and records the
position as the immutable start position. -/
def mkBullet (owner : ℤ) (pos vel : Vec2) (angle : ℚ) : Bullet :=
  { owner_id := owner
    position := pos
    velocity := vel
    angle := angle
    speed := 5
    rect := bulletRect pos
    destroyed := false
    start_position := pos }

/-- Bullet.traveled_distance, kept in squared form (see `distSq`). -/
def Bullet.traveledDistSq (b : Bullet) : ℚ := distSq b.start_position b.position

/-- Bullet.dump_info: position, velocity, angle, destroyed, owner id.  The
start position is not dumped. -/
def Bullet.dump_info (b : Bullet) : BulletInfo :=
  { position := b.position
    velocity := b.velocity
    angle := b.angle
    destroyed := b.destroyed
    owner_id := b.owner_id }

/-- Bullet.load_info: overwrite exactly the dumped fields; the rect, the
speed and the start position are left as constructed. -/
def Bullet.load_info (b : Bullet) (bi : BulletInfo) : Bullet :=
  { b with
    position := bi.position
    velocity := bi.velocity
    angle := bi.angle
    destroyed := bi.destroyed
    owner_id := bi.owner_id }

/-- Bullet.update: move by the velocity, refresh the rect, mark destroyed
once the displacement from the start position passes 500, then strike
every player of a different id whose rect overlaps: such a player becomes
DEAD, receives half the bullet velocity as an impulse, and the bullet is
destroyed.  Returns the updated bullet together with the updated player
list. -/
def Bullet.update (b : Bullet) (players : List Player) : Bullet × List Player :=
  let pos := b.position.add b.velocity
  let rect := bulletRect pos
  let d1 := if distSq b.start_position pos > 500 * 500 then true else b.destroyed
  let hit := fun (p : Player) => decide (¬ p.id = b.owner_id) && collideRect rect p.rect
  let players2 := players.map (fun p =>
    if hit p then
      { p with
        state := PState.DEAD
        velocity := p.velocity.add (Vec2.scale (1/2) b.velocity) }
    else p)
  let d2 := if players.any hit then true else d1
  ({ b with position := pos, rect := rect, destroyed := d2 }, players2)

/-- The `Game` class: the player list and the live bullet list. -/
structure Game where
  players : List Player
  bullets : List Bullet
  deriving DecidableEq, Repr

/-- Sequential update of the bullet list, threading the player list the
way the Python loop mutates the shared game object. -/
def bulletsFold : List Bullet → List Player → List Bullet × List Player
  | [], ps => ([], ps)
  | b :: rest, ps =>
    let r := b.update ps
    let rr := bulletsFold rest r.2
    (r.1 :: rr.1, rr.2)

/-- Game.update: update every player, then every bullet (which may strike
players), then prune the destroyed bullets. -/
def Game.update (dt : ℚ) (g : Game) : Game :=
  let ps := g.players.map (Player.update dt)
  let bp := bulletsFold g.bullets ps
  { players := bp.2, bullets := bp.1.filter (fun b => !b.destroyed) }

/-- Game.dump_info: the full snapshot. -/
def Game.dump_info (g : Game) : GameInfo :=
  { players := g.players.map Player.dump_info
    bullets := g.bullets.map Bullet.dump_info }

/-- Reconstruction of one snapshot bullet in `Game.load_info`:
`b = Bullet(bi[owner_id]); b.load_info(bi)`.  The fresh bullet is built at
the default zero position, so its start position (and its stale rect) stay
at the origin. -/
def loadBulletFromInfo (bi : BulletInfo) : Bullet :=
  (mkBullet bi.owner_id Vec2.zero Vec2.zero 0).load_info bi

/-- In-place overwrite of the first player whose id matches the incoming
entry (the inner for/break loop of `Game.load_info`). -/
def overwriteFirst : List Player → PlayerInfo → List Player
  | [], _ => []
  | p :: rest, pi =>
    if p.id = pi.id then p.load_info pi :: rest else p :: overwriteFirst rest pi

/-- One step of the player merge in `Game.load_info`: overwrite the first
player with a matching id, or append a fresh `Player(len(players))` loaded
from the entry. -/
def applyPlayerInfo (ps : List Player) (pi : PlayerInfo) : List Player :=
  if ps.any (fun p => decide (p.id = pi.id)) then overwriteFirst ps pi
  else ps ++ [(newPlayer ps.length).load_info pi]

/-- The player part of `Game.load_info`, folded over the snapshot entries. -/
def loadFold (ps : List Player) (pis : List PlayerInfo) : List Player :=
  pis.foldl applyPlayerInfo ps

/-- Game.load_info: merge the snapshot players by id (append unseen ids),
and replace the bullet list wholesale with freshly constructed bullets. -/
def Game.load_info (g : Game) (info : GameInfo) : Game :=
  { players := loadFold g.players info.players
    bullets := info.bullets.map loadBulletFromInfo }

/-- The five message kinds of `MessageType`, with the payload each one
carries in the source. -/
inductive Msg where
  | gameInfoRequest
  | gameInfoSend (info : GameInfo)
  | playerInfoBroadcast
  | playerInfo (pinfo : PlayerInfo)
  | newPlayerInfo (pinfo : PlayerInfo)
  deriving DecidableEq, Repr

/-- Client-side state: the local game mirror plus the index of the object
`self.player` inside `game.players` (the object appended on
NEW_PLAYER_INFO; Python mutates it through both references). -/
structure ClientState where
  game : Game
  ownedIdx : Nat
  deriving DecidableEq, Repr

/-- GameClient.handle_message.  NEW_PLAYER_INFO: build the owned player
from the payload, relabel it CURRENT, append it.  GAME_INFO_SEND: dump the
owned player, normalize a CURRENT label in the dump to ONLINE, merge the
snapshot into the local game, relabel an ONLINE dump back to CURRENT, and
finally load the saved dump back into the owned player object.  Other
kinds fall through unhandled. -/
def clientHandleMessage (st : ClientState) (m : Msg) : ClientState :=
  match m with
  | Msg.newPlayerInfo pinfo =>
    let p0 := (newPlayer pinfo.id).load_info pinfo
    let p1 := { p0 with state := PState.CURRENT }
    { game := { st.game with players := st.game.players ++ [p1] }
      ownedIdx := st.game.players.length }
  | Msg.gameInfoSend info =>
    let owned := st.game.players.getD st.ownedIdx (newPlayer 0)
    let d0 := owned.dump_info
    let d1 := if d0.state = PState.CURRENT then { d0 with state := PState.ONLINE } else d0
    let g1 := st.game.load_info info
    let d2 := if d1.state = PState.ONLINE then { d1 with state := PState.CURRENT } else d1
    let pl2 :=
      match g1.players.get? st.ownedIdx with
      | some q => g1.players.set st.ownedIdx (q.load_info d2)
      | none => g1.players
    { game := { players := pl2, bullets := g1.bullets }, ownedIdx := st.ownedIdx }
  | _ => st

/-- Bullet spawned by the server on an attacking PlayerInfo: aim by the
reported angle minus 270 degrees, direction `(sin, cos)` of the radian
angle (the `trig` parameter), scaled by the bullet speed 5; the bullet
starts one velocity step ahead of the reported position. -/
def spawnBullet (trig : ℚ → ℚ × ℚ) (pinfo : PlayerInfo) : Bullet :=
  let angle := pinfo.angle - 270
  let dir := trig angle
  let vel := Vec2.scale 5 ⟨dir.1, dir.2⟩
  mkBullet pinfo.id (pinfo.position.add vel) vel angle

/-- One iteration of the per-player loop in the PLAYER_INFO branch of
GameServer.handle_message: first normalize a stored CURRENT label to
ONLINE, then, if the id matches the message, load the incoming fields
verbatim. -/
def serverMergeStep (pinfo : PlayerInfo) (p : Player) : Player :=
  let p1 := if p.state = PState.CURRENT then { p with state := PState.ONLINE } else p
  if p1.id = pinfo.id then p1.load_info pinfo else p1

/-- The PLAYER_INFO branch of GameServer.handle_message: spawn a bullet if
the incoming attacking flag is set, then run the per-player merge loop. -/
def serverHandlePlayerInfo (trig : ℚ → ℚ × ℚ) (g : Game) (pinfo : PlayerInfo) : Game :=
  let g1 :=
    if pinfo.attacking then { g with bullets := g.bullets ++ [spawnBullet trig pinfo] }
    else g
  { g1 with players := g1.players.map (serverMergeStep pinfo) }

/-- GameServer.handle_message: GAME_INFO_REQUEST answers with a snapshot
and mutates nothing; PLAYER_INFO merges; other kinds fall through.  (The
reply messages themselves are not modelled; only the canonical game state
is.) -/
def serverHandleMessage (trig : ℚ → ℚ × ℚ) (g : Game) (m : Msg) : Game :=
  match m with
  | Msg.playerInfo pinfo => serverHandlePlayerInfo trig g pinfo
  | _ => g

/-- One registered `PlayerConnection`: the index of its player inside
`game.players` (the object appended together with it) and the private
active flag. -/
structure ConnState where
  player_index : Nat
  active : Bool
  deriving DecidableEq, Repr

/-- Server-side state: the canonical game and the connection registry. -/
structure ServerState where
  game : Game
  connections : List ConnState
  deriving DecidableEq, Repr

/-- The fresh server: empty world, empty registry. -/
def initialServer : ServerState := { game := { players := [], bullets := [] }, connections := [] }

/-- GameServer.accept_clients, one accepted connection: the new player id
is the current connection count, the connection and the player are
appended, and the player is moved to the randomized spawn position
(supplied here as the `spawn` argument).  Returns the assigned id. -/
def acceptClient (st : ServerState) (spawn : Vec2) : ServerState × ℤ :=
  let newId : ℤ := st.connections.length
  let p := { newPlayer newId with position := spawn }
  ({ game := { st.game with players := st.game.players ++ [p] }
     connections := st.connections ++ [{ player_index := st.game.players.length, active := true }] },
   newId)

/-- PlayerConnection.disconnect on registry entry `k`: the socket closes,
the referenced player goes OFFLINE, the active flag clears.  The registry
entry itself is never removed. -/
def disconnectConn (st : ServerState) (k : Nat) : ServerState :=
  match st.connections.get? k with
  | none => st
  | some c =>
    let ps :=
      match st.game.players.get? c.player_index with
      | some p => st.game.players.set c.player_index { p with state := PState.OFFLINE }
      | none => st.game.players
    { game := { st.game with players := ps }
      connections := st.connections.set k { c with active := false } }

/-- Connection lifecycle events of a server session. -/
inductive SrvEvent where
  | accept (spawn : Vec2)
  | disconnect (k : Nat)
  deriving DecidableEq, Repr

/-- Run a sequence of lifecycle events, collecting the player ids assigned
by the accepts in order. -/
def runEvents (st : ServerState) : List SrvEvent → ServerState × List ℤ
  | [] => (st, [])
  | SrvEvent.accept sp :: rest =>
    let r := acceptClient st sp
    let rr := runEvents r.1 rest
    (rr.1, r.2 :: rr.2)
  | SrvEvent.disconnect k :: rest => runEvents (disconnectConn st k) rest

/-- Number of accept events in a sequence. -/
def countAccepts : List SrvEvent → Nat
  | [] => 0
  | SrvEvent.accept _ :: rest => countAccepts rest + 1
  | SrvEvent.disconnect _ :: rest => countAccepts rest

/-- Wire-level message: a kind tag and a payload, standing for an
arbitrary pickled `Message`. -/
structure WireMsg where
  kind : Nat
  payload : List Nat
  deriving DecidableEq, Repr

/-- First byte of a pickled value in this model (an opcode marker). -/
def PROTO : Nat := 128

/-- The pickle STOP opcode terminating one pickled value. -/
def STOPB : Nat := 46

/-- Model of `pickle.dumps`: a self-delimiting encoding - opcode marker,
kind, payload length, payload bytes, STOP. -/
def pdump (m : WireMsg) : List Nat :=
  PROTO :: m.kind :: m.payload.length :: (m.payload ++ [STOPB])

/-- Outcome of `pickle.loads` on a byte buffer. -/
inductive PickleResult where
  | ok (m : WireMsg)
  | unpicklingError
  | eofError
  deriving DecidableEq, Repr

/-- Model of `pickle.loads`: parse one complete value from the front of
the buffer and ignore any trailing bytes; an unknown leading opcode gives
`UnpicklingError`; a buffer that ends before the value is complete
(including the empty buffer) gives `EOFError` (ran out of input). -/
def ploads (data : List Nat) : PickleResult :=
  match data with
  | [] => PickleResult.eofError
  | b :: rest =>
    if b = PROTO then
      match rest with
      | [] => PickleResult.eofError
      | k :: rest2 =>
        match rest2 with
        | [] => PickleResult.eofError
        | n :: rest3 =>
          if n ≤ rest3.length then
            match rest3.drop n with
            | [] => PickleResult.eofError
            | s :: _ =>
              if s = STOPB then PickleResult.ok ⟨k, rest3.take n⟩
              else PickleResult.unpicklingError
          else PickleResult.eofError
    else PickleResult.unpicklingError

/-- Projection of a player list to its id list (proof-layer helper used to
characterize the id-directed merge of `Game.load_info`). -/
def idsOf (ps : List Player) : List ℤ := ps.map Player.id

/-- Index of the first occurrence of an id in an id list (proof-layer
helper mirroring the first-match semantics of the for/break loop in
`Game.load_info`). -/
def idxOfId : List ℤ → ℤ → Option Nat
  | [], _ => none
  | a :: rest, i =>
    if a = i then some 0 else Option.map (fun k => k + 1) (idxOfId rest i)

/-- What one socket read can deliver to the server loop. -/
inductive NetEvent where
  | chunk (data : List Nat)
  | reset
  deriving DecidableEq, Repr

/-- Outcome of one per-connection iteration of GameServer.loop. -/
inductive RecvOutcome where
  | handled (m : WireMsg)
  | dropped
  | disconnected
  | fatal
  deriving DecidableEq, Repr

/-- One per-connection read of GameServer.loop: `recv` then
`pickle.loads` inside `try`, with `except pickle.UnpicklingError: pass`
and `except ConnectionResetError: disconnect`.  A successful parse is
handled; an UnpicklingError is silently dropped; a reset disconnects that
connection; any other exception (such as the EOFError that
`pickle.loads` raises on an empty read) is caught by nothing and escapes
the loop. -/
def serverRecvStep (ev : NetEvent) : RecvOutcome :=
  match ev with
  | NetEvent.reset => RecvOutcome.disconnected
  | NetEvent.chunk data =>
    match ploads data with
    | PickleResult.ok m => RecvOutcome.handled m
    | PickleResult.unpicklingError => RecvOutcome.dropped
    | PickleResult.eofError => RecvOutcome.fatal

/-- The two state relabels `clientHandleMessage` applies to the dump of
the owned player around the merge, taken together (proof-layer
abbreviation, definitionally equal to the inline steps): a CURRENT label
is first normalized to ONLINE, and an ONLINE label after the merge is
taken back to CURRENT. -/
def clientDumpAdjust (d : PlayerInfo) : PlayerInfo :=
  let d1 := if d.state = PState.CURRENT then { d with state := PState.ONLINE } else d
  if d1.state = PState.ONLINE then { d1 with state := PState.CURRENT } else d1

/-- Net effect of the client relabel dance on the state field: CURRENT
and ONLINE both end as CURRENT, every other state is untouched. -/
def clientRelabel : PState → PState
  | PState.CURRENT => PState.CURRENT
  | PState.ONLINE => PState.CURRENT
  | s => s

/-- Concrete trig parameter used by concrete evaluations (the angle sine
and cosine values themselves are irrelevant to the properties checked). -/
def c2Trig : ℚ → ℚ × ℚ := fun _ => (0, 1)

/-- Concrete world for the C2 evaluation: one ONLINE player with id 0. -/
def c2G : Game := { players := [newPlayer 0], bullets := [] }

/-- Concrete incoming PlayerInfo carrying the self-label CURRENT, as the
client main loop actually sends it. -/
def c2Pi : PlayerInfo :=
  { id := 0, position := Vec2.zero, velocity := Vec2.zero, angle := 0,
    state := PState.CURRENT, attacking := false }

/-- The player stored by the server after handling `c2Pi`. -/
def c2P : Player := (serverHandlePlayerInfo c2Trig c2G c2Pi).players.getD 0 (newPlayer 0)

/-- Concrete client state for the C1 and C8 evaluations: the owned player
sits at index 0, labelled CURRENT, at the origin. -/
def c1St : ClientState :=
  { game := { players := [{ newPlayer 0 with state := PState.CURRENT }], bullets := [] }
    ownedIdx := 0 }

/-- Concrete snapshot whose entry for the owned id 0 carries position
(10,10), velocity (1,1), state ONLINE and attacking true. -/
def c1Info : GameInfo :=
  { players := [{ id := 0, position := ⟨10, 10⟩, velocity := ⟨1, 1⟩, angle := 0,
                  state := PState.ONLINE, attacking := true }]
    bullets := [] }

/-- Concrete client state for the C8 witness. -/
def c8St : ClientState :=
  { game := { players := [{ newPlayer 0 with state := PState.CURRENT }], bullets := [] }
    ownedIdx := 0 }

/-- Concrete snapshot for the C8 witness: a moved echo of the owned
player, one unseen player, one bullet. -/
def c8Info : GameInfo :=
  { players := [{ id := 0, position := ⟨3, 4⟩, velocity := ⟨1, 0⟩, angle := 90,
                  state := PState.ONLINE, attacking := false },
                { id := 7, position := ⟨5, 6⟩, velocity := ⟨0, 0⟩, angle := 0,
                  state := PState.ONLINE, attacking := true }]
    bullets := [{ position := ⟨8, 8⟩, velocity := ⟨2, 2⟩, angle := 45,
                  destroyed := false, owner_id := 7 }] }

/-- Concrete player for the C5 evaluation: fresh, with the fire button
held on the first tick. -/
def c5P : Player := { newPlayer 0 with control_lmbutton := true }

/-- Concrete bullet for the C6 witness: owner id 5, at the origin. -/
def c6B : Bullet := mkBullet 5 ⟨0, 0⟩ ⟨0, 0⟩ 0

/-- Concrete players for the C6 witness: one victim (id 1) and the owner
(id 5), both with their freshly constructed rect at the origin. -/
def c6Players : List Player := [newPlayer 1, newPlayer 5]

/-- Concrete far-travelled bullet for the C7 witness: it sits 600 units
from its start position and will be destroyed on the next update. -/
def c7B : Bullet := { mkBullet 0 ⟨600, 0⟩ ⟨0, 0⟩ 0 with start_position := ⟨0, 0⟩ }

/-- Concrete world for the C7 witness. -/
def c7G : Game := { players := [], bullets := [c7B] }

/-- The id sequence `start, start+1, ...` of length `cnt` (proof-layer
helper describing the ids the accept loop hands out). -/
def expectedIds : Nat → Nat → List ℤ
  | _, 0 => []
  | s, n + 1 => (s : ℤ) :: expectedIds (s + 1) n

/-! Basic list lemmas (stated in the exact forms the merge proofs need). -/

theorem lget_lt_length {α : Type} : ∀ (l : List α) (i : Nat) (a : α),
    l.get? i = some a → i < l.length
  | [], i, a, h => by simp [List.get?] at h
  | _ :: _, 0, _, _ => Nat.succ_pos _
  | _ :: l, i + 1, a, h => Nat.succ_lt_succ (lget_lt_length l i a h)

theorem lget_exists {α : Type} : ∀ (l : List α) (i : Nat),
    i < l.length → ∃ a, l.get? i = some a
  | [], i, h => absurd h (Nat.not_lt_zero i)
  | x :: _, 0, _ => ⟨x, rfl⟩
  | _ :: l, i + 1, h => lget_exists l i (Nat.lt_of_succ_lt_succ h)

theorem lget_mem {α : Type} : ∀ (l : List α) (i : Nat) (a : α),
    l.get? i = some a → a ∈ l
  | x :: l, 0, a, h => by
    injection h with h
    subst h
    exact List.mem_cons_self x l
  | x :: l, i + 1, a, h => List.Mem.tail x (lget_mem l i a h)

theorem lget_set_self {α : Type} : ∀ (l : List α) (i : Nat) (a : α),
    i < l.length → (l.set i a).get? i = some a
  | [], i, _, h => absurd h (Nat.not_lt_zero i)
  | _ :: _, 0, _, _ => rfl
  | _ :: l, i + 1, a, h => lget_set_self l i a (Nat.lt_of_succ_lt_succ h)

theorem lget_set_ne {α : Type} : ∀ (l : List α) (i j : Nat) (a : α),
    ¬ i = j → (l.set i a).get? j = l.get? j
  | [], _, _, _, _ => rfl
  | _ :: _, 0, 0, _, h => absurd rfl h
  | _ :: _, 0, _ + 1, _, _ => rfl
  | _ :: _, _ + 1, 0, _, _ => rfl
  | _ :: l, i + 1, j + 1, a, h =>
    lget_set_ne l i j a (fun hh => h (congrArg Nat.succ hh))

theorem lset_set {α : Type} : ∀ (l : List α) (i : Nat) (a b : α),
    (l.set i a).set i b = l.set i b
  | [], _, _, _ => rfl
  | _ :: _, 0, _, _ => rfl
  | x :: l, i + 1, a, b => congrArg (List.cons x) (lset_set l i a b)

theorem lset_comm {α : Type} : ∀ (l : List α) (i j : Nat) (a b : α),
    ¬ i = j → (l.set i a).set j b = (l.set j b).set i a
  | [], _, _, _, _, _ => rfl
  | _ :: _, 0, 0, _, _, h => absurd rfl h
  | _ :: _, 0, _ + 1, _, _, _ => rfl
  | _ :: _, _ + 1, 0, _, _, _ => rfl
  | x :: l, i + 1, j + 1, a, b, h =>
    congrArg (List.cons x) (lset_comm l i j a b (fun hh => h (congrArg Nat.succ hh)))

theorem lset_append {α : Type} : ∀ (l t : List α) (i : Nat) (a : α),
    i < l.length → l.set i a ++ t = (l ++ t).set i a
  | [], _, i, _, h => absurd h (Nat.not_lt_zero i)
  | _ :: _, _, 0, _, _ => rfl
  | x :: l, t, i + 1, a, h =>
    congrArg (List.cons x) (lset_append l t i a (Nat.lt_of_succ_lt_succ h))

theorem lget_append {α : Type} : ∀ (l t : List α) (i : Nat),
    i < l.length → (l ++ t).get? i = l.get? i
  | [], _, i, h => absurd h (Nat.not_lt_zero i)
  | _ :: _, _, 0, _ => rfl
  | _ :: l, t, i + 1, h => lget_append l t i (Nat.lt_of_succ_lt_succ h)

theorem lget_append_self {α : Type} : ∀ (l : List α) (a : α),
    (l ++ [a]).get? l.length = some a
  | [], _ => rfl
  | _ :: l, a => lget_append_self l a

theorem lmap_set {α β : Type} (f : α → β) : ∀ (l : List α) (i : Nat) (a : α),
    (l.set i a).map f = (l.map f).set i (f a)
  | [], _, _ => rfl
  | _ :: _, 0, _ => rfl
  | x :: l, i + 1, a => congrArg (List.cons (f x)) (lmap_set f l i a)

theorem lget_map {α β : Type} (f : α → β) : ∀ (l : List α) (i : Nat),
    (l.map f).get? i = (l.get? i).map f
  | [], _ => rfl
  | _ :: _, 0 => rfl
  | _ :: l, i + 1 => lget_map f l i

theorem lset_of_get {α : Type} : ∀ (l : List α) (i : Nat) (a : α),
    l.get? i = some a → l.set i a = l
  | [], i, a, h => by simp [List.get?] at h
  | x :: l, 0, a, h => by
    injection h with h
    subst h
    rfl
  | x :: l, i + 1, a, h => congrArg (List.cons x) (lset_of_get l i a h)

/-! Load and dump facts. -/

theorem load_load (p : Player) (a b : PlayerInfo) :
    (p.load_info a).load_info b = p.load_info b := rfl

theorem dump_load (p : Player) (a : PlayerInfo) :
    (p.load_info a).dump_info = a := rfl

theorem load_id (p : Player) (a : PlayerInfo) :
    (p.load_info a).id = a.id := rfl

/-! Facts about first-occurrence indices of ids. -/

theorem idx_lt : ∀ (ids : List ℤ) (i : ℤ) (j : Nat),
    idxOfId ids i = some j → j < ids.length := by
  intro ids
  induction ids with
  | nil => intro i j h; simp [idxOfId] at h
  | cons a rest IH =>
    intro i j h
    by_cases ha : a = i
    · simp [idxOfId, ha] at h
      simp [List.length_cons]
      omega
    · simp [idxOfId, ha] at h
      rcases h with ⟨k, hk, hkj⟩
      have := IH i k hk
      simp [List.length_cons]
      omega

theorem idx_get : ∀ (ids : List ℤ) (i : ℤ) (j : Nat),
    idxOfId ids i = some j → ids.get? j = some i := by
  intro ids
  induction ids with
  | nil => intro i j h; simp [idxOfId] at h
  | cons a rest IH =>
    intro i j h
    by_cases ha : a = i
    · simp [idxOfId, ha] at h
      subst h
      simp [ha]
    · simp [idxOfId, ha] at h
      rcases h with ⟨k, hk, hkj⟩
      subst hkj
      exact IH i k hk

theorem idx_none_iff : ∀ (ids : List ℤ) (i : ℤ),
    idxOfId ids i = none ↔ ¬ i ∈ ids := by
  intro ids
  induction ids with
  | nil => intro i; simp [idxOfId]
  | cons a rest IH =>
    intro i
    by_cases ha : a = i
    · simp [idxOfId, ha]
    · simp [idxOfId, ha, IH i, Ne.symm ha]

theorem idx_mem_some : ∀ (ids : List ℤ) (i : ℤ),
    i ∈ ids → ∃ j, idxOfId ids i = some j := by
  intro ids i h
  cases hx : idxOfId ids i with
  | none => exact absurd h ((idx_none_iff ids i).mp hx)
  | some j => exact ⟨j, rfl⟩

theorem idx_append_of_some : ∀ (ids ext : List ℤ) (i : ℤ) (j : Nat),
    idxOfId ids i = some j → idxOfId (ids ++ ext) i = some j := by
  intro ids
  induction ids with
  | nil => intro ext i j h; simp [idxOfId] at h
  | cons a rest IH =>
    intro ext i j h
    by_cases ha : a = i
    · simp [idxOfId, ha] at h ⊢
      exact h
    · simp [idxOfId, ha] at h ⊢
      rcases h with ⟨k, hk, hkj⟩
      exact ⟨k, IH ext i k hk, hkj⟩

theorem idx_append_lt : ∀ (ids ext : List ℤ) (i : ℤ) (j : Nat),
    idxOfId (ids ++ ext) i = some j → j < ids.length → idxOfId ids i = some j := by
  intro ids
  induction ids with
  | nil => intro ext i j _ h; exact absurd h (Nat.not_lt_zero j)
  | cons a rest IH =>
    intro ext i j h hj
    by_cases ha : a = i
    · simp [idxOfId, ha] at h ⊢
      exact h
    · simp [idxOfId, ha] at h ⊢
      rcases h with ⟨k, hk, hkj⟩
      refine ⟨k, IH ext i k hk ?_, hkj⟩
      simp [List.length_cons] at hj
      omega

theorem idx_append_new : ∀ (ids : List ℤ) (i : ℤ),
    ¬ i ∈ ids → idxOfId (ids ++ [i]) i = some ids.length := by
  intro ids
  induction ids with
  | nil => intro i _; simp [idxOfId]
  | cons a rest IH =>
    intro i h
    simp at h
    simp [idxOfId, Ne.symm h.1, IH i h.2, List.length_cons]

/-! Characterization of the id-directed player merge of `Game.load_info`. -/

theorem any_eq_idx (ps : List Player) (i : ℤ) :
    (ps.any fun p => decide (p.id = i)) = (idxOfId (idsOf ps) i).isSome := by
  induction ps with
  | nil => rfl
  | cons p rest IH =>
    by_cases h : p.id = i
    · simp [idsOf, idxOfId, h]
    · simp [idsOf, idxOfId, h] at IH ⊢
      rw [IH]

theorem overwrite_spec : ∀ (ps : List Player) (pinfo : PlayerInfo) (j : Nat),
    idxOfId (idsOf ps) pinfo.id = some j →
    ∃ p, ps.get? j = some p ∧ p.id = pinfo.id ∧
      overwriteFirst ps pinfo = ps.set j (p.load_info pinfo) := by
  intro ps
  induction ps with
  | nil => intro pinfo j h; simp [idsOf, idxOfId] at h
  | cons p rest IH =>
    intro pinfo j h
    by_cases hp : p.id = pinfo.id
    · simp [idsOf, idxOfId, hp] at h
      subst h
      exact ⟨p, rfl, hp, by simp [overwriteFirst, hp]⟩
    · simp [idsOf, idxOfId, hp] at h
      rcases h with ⟨k, hk, hkj⟩
      subst hkj
      rcases IH pinfo k hk with ⟨q, hq1, hq2, hq3⟩
      exact ⟨q, hq1, hq2, by simp [overwriteFirst, hp, hq3]⟩

theorem apply_present (ps : List Player) (pinfo : PlayerInfo) (j : Nat)
    (h : idxOfId (idsOf ps) pinfo.id = some j) :
    ∃ p, ps.get? j = some p ∧ p.id = pinfo.id ∧
      applyPlayerInfo ps pinfo = ps.set j (p.load_info pinfo) := by
  rcases overwrite_spec ps pinfo j h with ⟨p, h1, h2, h3⟩
  refine ⟨p, h1, h2, ?_⟩
  unfold applyPlayerInfo
  rw [any_eq_idx, h]
  simpa using h3

theorem apply_absent (ps : List Player) (pinfo : PlayerInfo)
    (h : idxOfId (idsOf ps) pinfo.id = none) :
    applyPlayerInfo ps pinfo = ps ++ [(newPlayer ps.length).load_info pinfo] := by
  unfold applyPlayerInfo
  rw [any_eq_idx, h]
  simp

theorem ids_apply_present (ps : List Player) (pinfo : PlayerInfo) (j : Nat)
    (h : idxOfId (idsOf ps) pinfo.id = some j) :
    idsOf (applyPlayerInfo ps pinfo) = idsOf ps := by
  rcases apply_present ps pinfo j h with ⟨p, h1, h2, h3⟩
  rw [h3]
  show (ps.set j (p.load_info pinfo)).map Player.id = idsOf ps
  rw [lmap_set, load_id]
  have hg : (ps.map Player.id).get? j = some pinfo.id := by
    rw [lget_map, h1]
    simp [h2]
  exact lset_of_get _ j _ hg

theorem ids_apply_absent (ps : List Player) (pinfo : PlayerInfo)
    (h : idxOfId (idsOf ps) pinfo.id = none) :
    idsOf (applyPlayerInfo ps pinfo) = idsOf ps ++ [pinfo.id] := by
  rw [apply_absent ps pinfo h]
  simp [idsOf, load_id]

theorem apply_mem (ps : List Player) (pinfo : PlayerInfo) :
    pinfo.id ∈ idsOf (applyPlayerInfo ps pinfo) := by
  cases h : idxOfId (idsOf ps) pinfo.id with
  | some j =>
    rw [ids_apply_present ps pinfo j h]
    exact lget_mem _ j _ (idx_get _ _ j h)
  | none =>
    rw [ids_apply_absent ps pinfo h]
    simp

theorem loadFold_nil (ps : List Player) : loadFold ps [] = ps := rfl

theorem loadFold_cons (ps : List Player) (pinfo : PlayerInfo) (rest : List PlayerInfo) :
    loadFold ps (pinfo :: rest) = loadFold (applyPlayerInfo ps pinfo) rest := rfl

theorem loadFold_ids_ext : ∀ (pis : List PlayerInfo) (ps : List Player),
    ∃ ext, idsOf (loadFold ps pis) = idsOf ps ++ ext := by
  intro pis
  induction pis with
  | nil => intro ps; exact ⟨[], by simp [loadFold_nil]⟩
  | cons pinfo rest IH =>
    intro ps
    rw [loadFold_cons]
    rcases IH (applyPlayerInfo ps pinfo) with ⟨ext, hext⟩
    cases h : idxOfId (idsOf ps) pinfo.id with
    | some j => exact ⟨ext, by rw [hext, ids_apply_present ps pinfo j h]⟩
    | none =>
      exact ⟨pinfo.id :: ext, by rw [hext, ids_apply_absent ps pinfo h]; simp⟩

theorem loadFold_mem : ∀ (pis : List PlayerInfo) (ps : List Player) (pinfo : PlayerInfo),
    pinfo ∈ pis → pinfo.id ∈ idsOf (loadFold ps pis) := by
  intro pis
  induction pis with
  | nil => intro ps pinfo h; simp at h
  | cons r rest IH =>
    intro ps pinfo h
    rw [loadFold_cons]
    rcases List.mem_cons.mp h with h | h
    · subst h
      rcases loadFold_ids_ext rest (applyPlayerInfo ps pinfo) with ⟨ext, hext⟩
      rw [hext]
      exact List.mem_append_left _ (apply_mem ps pinfo)
    · exact IH _ pinfo h

theorem loadFold_len_ge (pis : List PlayerInfo) (ps : List Player) :
    ps.length ≤ (loadFold ps pis).length := by
  rcases loadFold_ids_ext pis ps with ⟨ext, hext⟩
  have h1 : (idsOf (loadFold ps pis)).length = (idsOf ps ++ ext).length := by rw [hext]
  simp [idsOf, List.length_append] at h1
  omega

theorem loadFold_get_nohit : ∀ (pis : List PlayerInfo) (ps : List Player) (j : Nat),
    j < ps.length →
    (∀ r ∈ pis, ¬ idxOfId (idsOf ps) r.id = some j) →
    (loadFold ps pis).get? j = ps.get? j := by
  intro pis
  induction pis with
  | nil => intro ps j _ _; rfl
  | cons r rest IH =>
    intro ps j hj hall
    have hj' : j < (idsOf ps).length := by simpa [idsOf] using hj
    rw [loadFold_cons]
    cases h : idxOfId (idsOf ps) r.id with
    | some jr =>
      have hjr : ¬ jr = j := fun hh => hall r (List.mem_cons_self r rest) (hh ▸ h)
      rcases apply_present ps r jr h with ⟨p, _, _, h3⟩
      have hids : idsOf (applyPlayerInfo ps r) = idsOf ps := ids_apply_present ps r jr h
      have hrec := IH (applyPlayerInfo ps r) j
        (by rw [h3]; simpa [List.length_set] using hj)
        (by intro r' hr'
            rw [hids]
            exact hall r' (List.mem_cons_of_mem _ hr'))
      rw [hrec, h3, lget_set_ne _ jr j _ hjr]
    | none =>
      have h3 := apply_absent ps r h
      have hids := ids_apply_absent ps r h
      have hrec := IH (applyPlayerInfo ps r) j
        (by rw [h3]; simp [List.length_append]; omega)
        (by intro r' hr'
            rw [hids]
            intro hcon
            exact hall r' (List.mem_cons_of_mem _ hr') (idx_append_lt _ _ _ j hcon hj'))
      rw [hrec, h3, lget_append _ _ j hj]

/-- How the player merge propagates a single-slot overwrite of the start
state: either some snapshot entry targets the modified slot and the two
runs converge, or no entry does, the overwrite commutes with the whole
merge, and the untouched slot of the plain run still holds its old
player. -/
theorem loadFold_set_cases :
    ∀ (pis : List PlayerInfo) (Z : List Player) (j : Nat) (zj : Player) (pinfo : PlayerInfo),
    Z.get? j = some zj → zj.id = pinfo.id →
    loadFold (Z.set j (zj.load_info pinfo)) pis = loadFold Z pis ∨
    ((∀ r ∈ pis, ¬ idxOfId (idsOf Z) r.id = some j) ∧
     loadFold (Z.set j (zj.load_info pinfo)) pis
       = (loadFold Z pis).set j (zj.load_info pinfo) ∧
     (loadFold Z pis).get? j = some zj) := by
  intro pis
  induction pis with
  | nil =>
    intro Z j zj pinfo hz _
    right
    exact ⟨by intro r hr; simp at hr, rfl, hz⟩
  | cons r rest IH =>
    intro Z j zj pinfo hz hid
    have hjlen : j < Z.length := lget_lt_length Z j zj hz
    have hidsZ : idsOf (Z.set j (zj.load_info pinfo)) = idsOf Z := by
      show (Z.set j (zj.load_info pinfo)).map Player.id = idsOf Z
      rw [lmap_set, load_id]
      have hg : (Z.map Player.id).get? j = some pinfo.id := by
        rw [lget_map, hz]
        simp [hid]
      exact lset_of_get _ j _ hg
    rw [loadFold_cons, loadFold_cons]
    cases hc : idxOfId (idsOf Z) r.id with
    | some jr =>
      rcases apply_present Z r jr hc with ⟨w, hw1, hw2, hw3⟩
      have hcX : idxOfId (idsOf (Z.set j (zj.load_info pinfo))) r.id = some jr := by
        rw [hidsZ]; exact hc
      rcases apply_present (Z.set j (zj.load_info pinfo)) r jr hcX with ⟨w', hw1', hw2', hw3'⟩
      by_cases hjj : jr = j
      · -- the entry r targets the modified slot: the runs converge
        rw [hjj] at hw1 hw3 hw1' hw3'
        have hwz : w = zj := by
          have h0 := hw1.symm.trans hz
          injection h0
        have hw'v : w' = zj.load_info pinfo := by
          have h0 := hw1'.symm.trans (lget_set_self Z j (zj.load_info pinfo) hjlen)
          injection h0
        have heq2 : applyPlayerInfo (Z.set j (zj.load_info pinfo)) r = applyPlayerInfo Z r := by
          rw [hw3, hw3', hw'v, hwz, load_load, lset_set]
        left
        rw [heq2]
      · -- the entry r targets a different slot: the overwrite survives
        have hww : w' = w := by
          have h0 : (Z.set j (zj.load_info pinfo)).get? jr = Z.get? jr :=
            lget_set_ne Z j jr _ (fun hh => hjj hh.symm)
          have h1 := hw1'.symm.trans (h0.trans hw1)
          injection h1
        have hXr : applyPlayerInfo (Z.set j (zj.load_info pinfo)) r
            = (applyPlayerInfo Z r).set j (zj.load_info pinfo) := by
          rw [hw3, hw3', hww, lset_comm Z j jr _ _ (fun hh => hjj hh.symm)]
        have hZr_get : (applyPlayerInfo Z r).get? j = some zj := by
          rw [hw3, lget_set_ne Z jr j _ hjj, hz]
        have hidsZr : idsOf (applyPlayerInfo Z r) = idsOf Z := ids_apply_present Z r jr hc
        rcases IH (applyPlayerInfo Z r) j zj pinfo hZr_get hid with h | ⟨hall, heq, hget⟩
        · left
          rw [hXr]
          exact h
        · right
          refine ⟨?_, by rw [hXr]; exact heq, hget⟩
          intro r' hr'
          rcases List.mem_cons.mp hr' with hr' | hr'
          · subst hr'
            rw [hc]
            simp [hjj]
          · intro hcon
            exact hall r' hr' (by rw [hidsZr]; exact hcon)
    | none =>
      have hcX : idxOfId (idsOf (Z.set j (zj.load_info pinfo))) r.id = none := by
        rw [hidsZ]; exact hc
      have h3 := apply_absent Z r hc
      have h3X := apply_absent (Z.set j (zj.load_info pinfo)) r hcX
      have hlen_eq : (Z.set j (zj.load_info pinfo)).length = Z.length := by
        simp [List.length_set]
      have hXr : applyPlayerInfo (Z.set j (zj.load_info pinfo)) r
          = (applyPlayerInfo Z r).set j (zj.load_info pinfo) := by
        rw [h3, h3X, hlen_eq, lset_append Z _ j _ hjlen]
      have hZr_get : (applyPlayerInfo Z r).get? j = some zj := by
        rw [h3, lget_append Z _ j hjlen, hz]
      have hidsZr : idsOf (applyPlayerInfo Z r) = idsOf Z ++ [r.id] := ids_apply_absent Z r hc
      rcases IH (applyPlayerInfo Z r) j zj pinfo hZr_get hid with h | ⟨hall, heq, hget⟩
      · left
        rw [hXr]
        exact h
      · right
        refine ⟨?_, by rw [hXr]; exact heq, hget⟩
        intro r' hr'
        rcases List.mem_cons.mp hr' with hr' | hr'
        · subst hr'
          rw [hc]
          simp
        · intro hcon
          exact hall r' hr' (by rw [hidsZr]; exact idx_append_of_some _ _ _ j hcon)

/-- Applying the player merge of one snapshot twice in a row is the same
as applying it once. -/
theorem loadFold_idem : ∀ (pis : List PlayerInfo) (ps : List Player),
    loadFold (loadFold ps pis) pis = loadFold ps pis := by
  intro pis
  induction pis with
  | nil => intro ps; rfl
  | cons pinfo rest IH =>
    intro ps
    show loadFold (applyPlayerInfo (loadFold (applyPlayerInfo ps pinfo) rest) pinfo) rest
        = loadFold (applyPlayerInfo ps pinfo) rest
    set Y := loadFold (applyPlayerInfo ps pinfo) rest with hYdef
    have hY : loadFold Y rest = Y := IH (applyPlayerInfo ps pinfo)
    have hmem : pinfo.id ∈ idsOf (applyPlayerInfo ps pinfo) := apply_mem ps pinfo
    rcases loadFold_ids_ext rest (applyPlayerInfo ps pinfo) with ⟨ext, hext⟩
    rcases idx_mem_some _ _ hmem with ⟨j, hj⟩
    have hjY : idxOfId (idsOf Y) pinfo.id = some j := by
      rw [hYdef, hext]
      exact idx_append_of_some _ _ _ j hj
    have hjlt : j < (idsOf (applyPlayerInfo ps pinfo)).length := idx_lt _ _ j hj
    have hjlt' : j < (applyPlayerInfo ps pinfo).length := by simpa [idsOf] using hjlt
    rcases apply_present Y pinfo j hjY with ⟨yj, hy1, hy2, hy3⟩
    rcases loadFold_set_cases rest Y j yj pinfo hy1 hy2 with h | ⟨hall, heq, _⟩
    · rw [hy3, h]
      exact hY
    · have hallA : ∀ r ∈ rest, ¬ idxOfId (idsOf (applyPlayerInfo ps pinfo)) r.id = some j := by
        intro r hr hcon
        exact hall r hr (by rw [hYdef, hext]; exact idx_append_of_some _ _ _ j hcon)
      have hYj : Y.get? j = (applyPlayerInfo ps pinfo).get? j :=
        loadFold_get_nohit rest (applyPlayerInfo ps pinfo) j hjlt' hallA
      have hform : ∃ x : Player, (applyPlayerInfo ps pinfo).get? j = some (x.load_info pinfo) := by
        cases hc : idxOfId (idsOf ps) pinfo.id with
        | some j0 =>
          rcases apply_present ps pinfo j0 hc with ⟨p, hp1, hp2, hp3⟩
          have hj0 : j = j0 := by
            have hcA : idxOfId (idsOf (applyPlayerInfo ps pinfo)) pinfo.id = some j0 := by
              rw [ids_apply_present ps pinfo j0 hc]
              exact hc
            have h0 := hj.symm.trans hcA
            injection h0
          have hj0lt : j0 < ps.length := by
            have := idx_lt _ _ j0 hc
            simpa [idsOf] using this
          rw [hj0, hp3]
          exact ⟨p, lget_set_self ps j0 _ hj0lt⟩
        | none =>
          rw [apply_absent ps pinfo hc]
          have hnotmem : ¬ pinfo.id ∈ idsOf ps := (idx_none_iff _ _).mp hc
          have hidx : idxOfId (idsOf ps ++ [pinfo.id]) pinfo.id = some (idsOf ps).length :=
            idx_append_new _ _ hnotmem
          have hjlenps : j = (idsOf ps).length := by
            have hcA : idxOfId (idsOf (applyPlayerInfo ps pinfo)) pinfo.id
                = some (idsOf ps).length := by
              rw [ids_apply_absent ps pinfo hc]
              exact hidx
            have h0 := hj.symm.trans hcA
            injection h0
          have hlen : (idsOf ps).length = ps.length := by simp [idsOf]
          rw [hjlenps, hlen]
          exact ⟨newPlayer ps.length, lget_append_self ps _⟩
      rcases hform with ⟨x, hx⟩
      have hyx : yj = x.load_info pinfo := by
        have h0 := hy1.symm.trans (hYj.trans hx)
        injection h0
      have habs : yj.load_info pinfo = yj := by rw [hyx, load_load]
      rw [hy3, heq, hY, habs]
      exact lset_of_get Y j yj hy1

/-! Helper lemmas for the message handlers. -/

theorem lgetD_of_get {α : Type} : ∀ (l : List α) (i : Nat) (a d : α),
    l.get? i = some a → l.getD i d = a
  | [], i, a, d, h => by simp [List.get?] at h
  | x :: l, 0, a, d, h => by
    injection h with h
  | x :: l, i + 1, a, d, h => lgetD_of_get l i a d h

theorem adjust_eq (d : PlayerInfo) :
    clientDumpAdjust d = { d with state := clientRelabel d.state } := by
  rcases d with ⟨i, pos, vel, a, s, att⟩
  cases s <;> rfl

theorem relabel_relabel (s : PState) : clientRelabel (clientRelabel s) = clientRelabel s := by
  cases s <;> rfl

theorem adjust_adjust (d : PlayerInfo) :
    clientDumpAdjust (clientDumpAdjust d) = clientDumpAdjust d := by
  rcases d with ⟨i, pos, vel, a, s, att⟩
  cases s <;> rfl

theorem adjust_id (d : PlayerInfo) : (clientDumpAdjust d).id = d.id := by
  rw [adjust_eq]

/-- Explicit form of the GAME_INFO_SEND branch of the client handler,
once the owned slot of the merged list is known. -/
theorem clientHandleSend_eq (st : ClientState) (info : GameInfo) (q : Player)
    (hq : (loadFold st.game.players info.players).get? st.ownedIdx = some q) :
    clientHandleMessage st (Msg.gameInfoSend info) =
      { game := { players := (loadFold st.game.players info.players).set st.ownedIdx
                    (q.load_info (clientDumpAdjust
                      (st.game.players.getD st.ownedIdx (newPlayer 0)).dump_info))
                  bullets := info.bullets.map loadBulletFromInfo }
        ownedIdx := st.ownedIdx } := by
  simp only [clientHandleMessage, Game.load_info, clientDumpAdjust]
  rw [hq]

/-- The player list produced by one bullet update. -/
theorem bullet_update_players (b : Bullet) (players : List Player) :
    (b.update players).2 = players.map (fun p =>
      if decide (¬ p.id = b.owner_id)
          && collideRect (bulletRect (b.position.add b.velocity)) p.rect then
        { p with
          state := PState.DEAD
          velocity := p.velocity.add (Vec2.scale (1/2) b.velocity) }
      else p) := rfl

/-- The destroyed flag produced by one bullet update. -/
theorem bullet_update_destroyed (b : Bullet) (players : List Player) :
    (b.update players).1.destroyed =
      (if players.any (fun p => decide (¬ p.id = b.owner_id)
            && collideRect (bulletRect (b.position.add b.velocity)) p.rect) then true
       else if distSq b.start_position (b.position.add b.velocity) > 500 * 500 then true
       else b.destroyed) := rfl

theorem bulletsFold_get : ∀ (bs : List Bullet) (ps : List Player) (i : Nat) (b : Bullet),
    bs.get? i = some b →
    ∃ qs : List Player, (bulletsFold bs ps).1.get? i = some (b.update qs).1 := by
  intro bs
  induction bs with
  | nil => intro ps i b h; simp [List.get?] at h
  | cons b0 rest IH =>
    intro ps i b h
    cases i with
    | zero =>
      injection h with h
      subst h
      exact ⟨ps, rfl⟩
    | succ i =>
      rcases IH (b0.update ps).2 i b h with ⟨qs, hq⟩
      exact ⟨qs, hq⟩

/-! Helper lemmas for the wire model. -/

theorem ploads_pdump_append (m : WireMsg) (rest : List Nat) :
    ploads (pdump m ++ rest) = PickleResult.ok m := by
  rcases m with ⟨k, payload⟩
  show ploads (PROTO :: k :: payload.length :: ((payload ++ [STOPB]) ++ rest))
      = PickleResult.ok ⟨k, payload⟩
  rw [List.append_assoc, List.singleton_append]
  have hle : payload.length ≤ (payload ++ STOPB :: rest).length := by
    simp [List.length_append]
  have hdrop : (payload ++ STOPB :: rest).drop payload.length = STOPB :: rest :=
    List.drop_left payload (STOPB :: rest)
  have htake : (payload ++ STOPB :: rest).take payload.length = payload :=
    List.take_left payload (STOPB :: rest)
  simp [ploads, PROTO, STOPB, hle, hdrop, htake]

theorem ploads_take_eof (m : WireMsg) (k : Nat) (hk : k < (pdump m).length) :
    ploads ((pdump m).take k) = PickleResult.eofError := by
  rcases m with ⟨t, payload⟩
  have hlen : (pdump ⟨t, payload⟩).length = payload.length + 4 := by
    simp [pdump, List.length_append]
  match k with
  | 0 => rfl
  | 1 => simp [pdump, ploads, PROTO]
  | 2 => simp [pdump, ploads, PROTO]
  | (k + 3) =>
    have hk3 : k ≤ payload.length := by
      rw [hlen] at hk
      omega
    show ploads (PROTO :: t :: payload.length :: ((payload ++ [STOPB]).take k))
        = PickleResult.eofError
    by_cases hcase : payload.length ≤ k
    · have hke : k = payload.length := Nat.le_antisymm hk3 hcase
      subst hke
      have htake : (payload ++ [STOPB]).take payload.length = payload :=
        List.take_left payload [STOPB]
      simp [ploads, PROTO, htake, List.drop_length]
    · have hlt : ¬ payload.length ≤ ((payload ++ [STOPB]).take k).length := by
        simp [List.length_take, List.length_append]
        omega
      simp [ploads, PROTO, hlt]
      intro hc
      exact absurd hc hcase

/-! Helper lemmas for the connection registry. -/

theorem expectedIds_ge : ∀ (n s : Nat) (x : ℤ),
    x ∈ expectedIds s n → (s : ℤ) ≤ x := by
  intro n
  induction n with
  | zero => intro s x h; simp [expectedIds] at h
  | succ n IH =>
    intro s x h
    rcases List.mem_cons.mp h with h | h
    · subst h; exact le_refl _
    · have := IH (s + 1) x h
      push_cast at this ⊢
      omega

theorem expectedIds_nodup : ∀ (n s : Nat), (expectedIds s n).Nodup := by
  intro n
  induction n with
  | zero => intro s; simp [expectedIds]
  | succ n IH =>
    intro s
    refine List.nodup_cons.mpr ⟨?_, IH (s + 1)⟩
    intro hmem
    have := expectedIds_ge n (s + 1) _ hmem
    push_cast at this
    omega

theorem runEvents_spec : ∀ (evs : List SrvEvent) (st : ServerState),
    (runEvents st evs).2 = expectedIds st.connections.length (countAccepts evs) ∧
    (runEvents st evs).1.connections.length = st.connections.length + countAccepts evs := by
  intro evs
  induction evs with
  | nil => intro st; exact ⟨rfl, rfl⟩
  | cons e rest IH =>
    intro st
    cases e with
    | accept sp =>
      have hlen : (acceptClient st sp).1.connections.length = st.connections.length + 1 := by
        simp [acceptClient, List.length_append]
      rcases IH (acceptClient st sp).1 with ⟨h1, h2⟩
      constructor
      · show ((acceptClient st sp).2 :: (runEvents (acceptClient st sp).1 rest).2)
            = expectedIds st.connections.length (countAccepts rest + 1)
        rw [h1, hlen]
        rfl
      · show (runEvents (acceptClient st sp).1 rest).1.connections.length
            = st.connections.length + (countAccepts rest + 1)
        rw [h2, hlen]
        omega
    | disconnect k =>
      have hlen : (disconnectConn st k).connections.length = st.connections.length := by
        unfold disconnectConn
        cases st.connections.get? k <;> simp [List.length_set]
      rcases IH (disconnectConn st k) with ⟨h1, h2⟩
      refine ⟨?_, ?_⟩
      · show (runEvents (disconnectConn st k) rest).2
            = expectedIds st.connections.length (countAccepts rest)
        rw [h1, hlen]
      · show (runEvents (disconnectConn st k) rest).1.connections.length
            = st.connections.length + countAccepts rest
        rw [h2, hlen]

/-! Claim theorems. -/

/-- C1, counterexample: with the owned player (id 0) at rest at the
origin, CURRENT and not attacking, and a snapshot whose entry for id 0
carries position (10,10), velocity (1,1) and attacking true, the claim
predicts that after `GameClient.handle_message` the owned player holds
those echoed values (with only the Current relabel restored).  The code
instead restores the whole pre-merge local dump: position, velocity and
attacking each differ from the snapshot entry, so the claim is false at
this input on every one of those three fields. -/
theorem c1_client_discards_echo_cex :
    ¬ (((clientHandleMessage c1St (Msg.gameInfoSend c1Info)).game.players.getD 0
          (newPlayer 0)).position = ⟨10, 10⟩) ∧
    ¬ (((clientHandleMessage c1St (Msg.gameInfoSend c1Info)).game.players.getD 0
          (newPlayer 0)).velocity = ⟨1, 1⟩) ∧
    ¬ (((clientHandleMessage c1St (Msg.gameInfoSend c1Info)).game.players.getD 0
          (newPlayer 0)).attacking = true) := by
  with_unfolding_all decide

/-- C1, amended: after `GameClient.handle_message` on a GameInfoSend, the
owned player's position, velocity, angle and attacking fields equal the
values it had BEFORE the call (the dump saved at entry is loaded back, so
the server's echoed fields for the owned entity are discarded, not
accepted), and its state is CURRENT when it was CURRENT or ONLINE and is
unchanged otherwise. -/
theorem c1_owned_fields_restored_local (st : ClientState) (info : GameInfo)
    (h : st.ownedIdx < st.game.players.length) :
    ∃ x : Player,
      (clientHandleMessage st (Msg.gameInfoSend info)).game.players.get? st.ownedIdx
        = some x ∧
      x.position = (st.game.players.getD st.ownedIdx (newPlayer 0)).position ∧
      x.velocity = (st.game.players.getD st.ownedIdx (newPlayer 0)).velocity ∧
      x.angle = (st.game.players.getD st.ownedIdx (newPlayer 0)).angle ∧
      x.attacking = (st.game.players.getD st.ownedIdx (newPlayer 0)).attacking ∧
      x.id = (st.game.players.getD st.ownedIdx (newPlayer 0)).id ∧
      x.state = clientRelabel (st.game.players.getD st.ownedIdx (newPlayer 0)).state := by
  have hlt : st.ownedIdx < (loadFold st.game.players info.players).length :=
    Nat.lt_of_lt_of_le h (loadFold_len_ge info.players st.game.players)
  rcases lget_exists _ _ hlt with ⟨q, hq⟩
  refine ⟨q.load_info (clientDumpAdjust
      (st.game.players.getD st.ownedIdx (newPlayer 0)).dump_info), ?_, ?_, ?_, ?_, ?_, ?_, ?_⟩
  · rw [clientHandleSend_eq st info q hq]
    exact lget_set_self _ _ _ hlt
  all_goals rw [adjust_eq]
  all_goals rfl

/-- C1, witness: the amended theorem at the concrete state and snapshot. -/
theorem c1_owned_fields_restored_local_witness :
    ∃ x : Player,
      (clientHandleMessage c1St (Msg.gameInfoSend c1Info)).game.players.get? c1St.ownedIdx
        = some x ∧
      x.position = (c1St.game.players.getD c1St.ownedIdx (newPlayer 0)).position ∧
      x.velocity = (c1St.game.players.getD c1St.ownedIdx (newPlayer 0)).velocity ∧
      x.angle = (c1St.game.players.getD c1St.ownedIdx (newPlayer 0)).angle ∧
      x.attacking = (c1St.game.players.getD c1St.ownedIdx (newPlayer 0)).attacking ∧
      x.id = (c1St.game.players.getD c1St.ownedIdx (newPlayer 0)).id ∧
      x.state = clientRelabel (c1St.game.players.getD c1St.ownedIdx (newPlayer 0)).state :=
  c1_owned_fields_restored_local c1St c1Info (by decide)

/-- C2, counterexample: a PlayerInfo carrying the self-label CURRENT (as
the client main loop actually sends) is stored verbatim, so immediately
after the server handles it a player in the canonical world has state
CURRENT: the claim that no player ever holds CURRENT after handling is
false. -/
theorem c2_current_survives_merge_cex :
    ((serverHandlePlayerInfo c2Trig c2G c2Pi).players.any
      (fun p => decide (p.state = PState.CURRENT))) = true := by
  with_unfolding_all decide

/-- One merge-loop step can only leave CURRENT on the player matching the
incoming id, and only when the incoming state itself is CURRENT. -/
theorem mergeStep_current (pinfo : PlayerInfo) (q : Player)
    (hs : (serverMergeStep pinfo q).state = PState.CURRENT) :
    (serverMergeStep pinfo q).id = pinfo.id ∧ pinfo.state = PState.CURRENT := by
  have key : serverMergeStep pinfo q =
      (if (if q.state = PState.CURRENT then { q with state := PState.ONLINE } else q).id
          = pinfo.id
       then (if q.state = PState.CURRENT then { q with state := PState.ONLINE } else q).load_info
          pinfo
       else (if q.state = PState.CURRENT then { q with state := PState.ONLINE } else q)) := rfl
  rw [key] at hs ⊢
  by_cases h1 : q.state = PState.CURRENT
  · rw [if_pos h1] at hs ⊢
    by_cases h2 : ({ q with state := PState.ONLINE } : Player).id = pinfo.id
    · rw [if_pos h2] at hs ⊢
      exact ⟨load_id _ _, hs⟩
    · rw [if_neg h2] at hs
      have hP : ({ q with state := PState.ONLINE } : Player).state = PState.ONLINE := rfl
      rw [hP] at hs
      exact PState.noConfusion hs
  · rw [if_neg h1] at hs ⊢
    by_cases h2 : q.id = pinfo.id
    · rw [if_pos h2] at hs ⊢
      exact ⟨load_id _ _, hs⟩
    · rw [if_neg h2] at hs
      exact absurd hs h1

/-- C2, amended: after the server handles a PlayerInfo message, every
player whose state is CURRENT is the one matching the incoming id, and
that happens exactly when the message itself carried CURRENT - previously
stored CURRENT labels are normalized to ONLINE, but the incoming label is
applied verbatim (it is only cleaned at the start of the NEXT PlayerInfo
handling, not before this one's fields are stored). -/
theorem c2_current_only_sender (trig : ℚ → ℚ × ℚ) (g : Game) (pinfo : PlayerInfo)
    (p : Player) (hp : p ∈ (serverHandlePlayerInfo trig g pinfo).players)
    (hs : p.state = PState.CURRENT) :
    p.id = pinfo.id ∧ pinfo.state = PState.CURRENT := by
  have hps : (serverHandlePlayerInfo trig g pinfo).players
      = g.players.map (serverMergeStep pinfo) := by
    unfold serverHandlePlayerInfo
    by_cases h : pinfo.attacking <;> simp [h]
  rw [hps] at hp
  rcases List.mem_map.mp hp with ⟨q, _, rfl⟩
  exact mergeStep_current pinfo q hs

/-- C2, witness: the amended theorem at the concrete world and message. -/
theorem c2_current_only_sender_witness :
    c2P.id = c2Pi.id ∧ c2Pi.state = PState.CURRENT :=
  c2_current_only_sender c2Trig c2G c2Pi c2P
    (by with_unfolding_all decide) (by with_unfolding_all decide)

/-- C3, counterexample: two messages arriving back-to-back in one read
are NOT each decoded once - `pickle.loads` yields only the first and the
trailing bytes are discarded - and a strict prefix of an encoding (a
message split across reads) does not decode at all. -/
theorem c3_single_read_single_decode_cex :
    serverRecvStep (NetEvent.chunk (pdump ⟨1, [2]⟩ ++ pdump ⟨1, [3]⟩))
      = RecvOutcome.handled ⟨1, [2]⟩ ∧
    (⟨1, [3]⟩ : WireMsg) ≠ ⟨1, [2]⟩ ∧
    ploads ((pdump ⟨1, [2]⟩).take 3) = PickleResult.eofError := by
  decide

/-- C3, amended: the receiver performs one fixed-size `recv` per loop
iteration and hands the chunk to `pickle.loads`, which decodes exactly
the first complete message of the chunk and discards the rest; a strict
prefix of an encoded message never decodes (it raises, i.e. the message
is lost, not buffered).  So of two back-to-back messages in one read only
the first is decoded, and a message split across reads is decoded zero
times, not once. -/
theorem c3_first_message_only (m1 m2 : WireMsg) (k : Nat) :
    serverRecvStep (NetEvent.chunk (pdump m1 ++ pdump m2)) = RecvOutcome.handled m1 ∧
    (k < (pdump m1).length → ploads ((pdump m1).take k) = PickleResult.eofError) := by
  constructor
  · simp [serverRecvStep, ploads_pdump_append]
  · exact ploads_take_eof m1 k

/-- C3, witness: the amended theorem at concrete messages and a concrete
split point. -/
theorem c3_first_message_only_witness :
    serverRecvStep (NetEvent.chunk (pdump ⟨7, [1]⟩ ++ pdump ⟨8, [2]⟩))
      = RecvOutcome.handled ⟨7, [1]⟩ ∧
    ploads ((pdump ⟨7, [1]⟩).take 2) = PickleResult.eofError :=
  ⟨(c3_first_message_only ⟨7, [1]⟩ ⟨8, [2]⟩ 2).1,
   (c3_first_message_only ⟨7, [1]⟩ ⟨8, [2]⟩ 2).2 (by decide)⟩

/-- C4, code-bug demonstration: a read that returns zero bytes (the
peer's orderly shutdown) reaches `pickle.loads` with an empty buffer,
which raises EOFError - an exception caught by neither `except` clause,
so it escapes `GameServer.loop` (fatal), while garbage bytes are indeed
dropped and a connection reset only disconnects that connection. -/
theorem c4_empty_read_uncaught :
    serverRecvStep (NetEvent.chunk []) = RecvOutcome.fatal ∧
    serverRecvStep (NetEvent.chunk [0]) = RecvOutcome.dropped ∧
    serverRecvStep NetEvent.reset = RecvOutcome.disconnected := by
  decide

/-- C5, code-bug demonstration: with the fire button held on tick one
(player fresh, cooldown idle), attacking becomes true; releasing the
button before tick two leaves attacking true on tick two - and on every
later tick - although no new fire input was observed, contradicting the
claimed edge-triggered behaviour. -/
theorem c5_attacking_sticks_after_release :
    (Player.update (1/100) c5P).attacking = true ∧
    ({ Player.update (1/100) c5P with control_lmbutton := false }).control_lmbutton = false ∧
    (Player.update (1/100)
      { Player.update (1/100) c5P with control_lmbutton := false }).attacking = true := by
  with_unfolding_all decide

/-- C6: in a tick's bullet update, a player whose id differs from the
bullet's owner and whose rect overlaps the bullet's post-move rect is
transitioned to DEAD with half the bullet velocity added as an impulse
(a single transition and a single impulse), and the bullet is destroyed
in the same update; a player whose id equals the owner id is returned
entirely unchanged. -/
theorem c6_bullet_collision (b : Bullet) (players : List Player) (i : Nat) (p : Player)
    (hp : players.get? i = some p) :
    (¬ p.id = b.owner_id →
      collideRect (bulletRect (b.position.add b.velocity)) p.rect = true →
      ((b.update players).2.get? i = some { p with
          state := PState.DEAD
          velocity := p.velocity.add (Vec2.scale (1/2) b.velocity) } ∧
        (b.update players).1.destroyed = true)) ∧
    (p.id = b.owner_id → (b.update players).2.get? i = some p) := by
  constructor
  · intro hid hcol
    constructor
    · rw [bullet_update_players, lget_map, hp]
      simp [hid, hcol]
    · rw [bullet_update_destroyed]
      have hany : players.any (fun q => decide (¬ q.id = b.owner_id)
          && collideRect (bulletRect (b.position.add b.velocity)) q.rect) = true := by
        refine List.any_eq_true.mpr ⟨p, lget_mem _ _ _ hp, ?_⟩
        simp [hid, hcol]
      rw [hany]
      simp
  · intro hid
    rw [bullet_update_players, lget_map, hp]
    simp [hid]

/-- C6, witness: a bullet owned by player 5 at the origin strikes player
1 (whose fresh rect overlaps) and leaves its owner untouched. -/
theorem c6_bullet_collision_witness :
    ((c6B.update c6Players).2.get? 0 = some { (newPlayer 1) with
        state := PState.DEAD
        velocity := (newPlayer 1).velocity.add (Vec2.scale (1/2) c6B.velocity) } ∧
      (c6B.update c6Players).1.destroyed = true) ∧
    (c6B.update c6Players).2.get? 1 = some (newPlayer 5) :=
  ⟨(c6_bullet_collision c6B c6Players 0 (newPlayer 1) rfl).1
      (by decide) (by with_unfolding_all decide),
   (c6_bullet_collision c6B c6Players 1 (newPlayer 5) rfl).2 rfl⟩

/-- C7: a bullet whose displacement from its start position exceeds 500
after this tick's position integration has its destroyed flag set by the
update, and the updated bullet is absent from the world's bullet list
after Game.update's end-of-tick prune. -/
theorem c7_far_bullet_pruned (dt : ℚ) (g : Game) (i : Nat) (b : Bullet)
    (hb : g.bullets.get? i = some b)
    (hd : distSq b.start_position (b.position.add b.velocity) > 500 * 500) :
    ∃ bu : Bullet,
      (bulletsFold g.bullets (g.players.map (Player.update dt))).1.get? i = some bu ∧
      bu.destroyed = true ∧ ¬ bu ∈ (Game.update dt g).bullets := by
  rcases bulletsFold_get g.bullets (g.players.map (Player.update dt)) i b hb with ⟨qs, hq⟩
  have hdes : (b.update qs).1.destroyed = true := by
    rw [bullet_update_destroyed]
    by_cases hany : (qs.any fun p => decide (¬ p.id = b.owner_id)
        && collideRect (bulletRect (b.position.add b.velocity)) p.rect) = true
    · rw [if_pos hany]
    · rw [if_neg hany, if_pos hd]
  refine ⟨(b.update qs).1, hq, hdes, ?_⟩
  intro hmem
  have hfil : (Game.update dt g).bullets
      = (bulletsFold g.bullets (g.players.map (Player.update dt))).1.filter
          (fun bb => !bb.destroyed) := rfl
  rw [hfil] at hmem
  have h2 := List.of_mem_filter hmem
  rw [hdes] at h2
  exact Bool.noConfusion h2

/-- C7, witness: the theorem at a concrete world holding one bullet 600
units from its start position. -/
theorem c7_far_bullet_pruned_witness :
    ∃ bu : Bullet,
      (bulletsFold c7G.bullets (c7G.players.map (Player.update 1))).1.get? 0 = some bu ∧
      bu.destroyed = true ∧ ¬ bu ∈ (Game.update 1 c7G).bullets :=
  c7_far_bullet_pruned 1 c7G 0 c7B rfl (by with_unfolding_all decide)

/-- C8: applying the client's GameInfoSend merge twice in a row with the
same snapshot yields the same client state - players field-for-field and
the same bullet list - as applying it once, the owned player's relabel
included. -/
theorem c8_merge_idempotent (st : ClientState) (info : GameInfo)
    (h : st.ownedIdx < st.game.players.length) :
    clientHandleMessage (clientHandleMessage st (Msg.gameInfoSend info)) (Msg.gameInfoSend info)
      = clientHandleMessage st (Msg.gameInfoSend info) := by
  have hlt : st.ownedIdx < (loadFold st.game.players info.players).length :=
    Nat.lt_of_lt_of_le h (loadFold_len_ge info.players st.game.players)
  rcases lget_exists _ _ hlt with ⟨q1, hq1⟩
  rcases lget_exists _ _ h with ⟨ow, how⟩
  have howD : st.game.players.getD st.ownedIdx (newPlayer 0) = ow := lgetD_of_get _ _ _ _ how
  have hA := clientHandleSend_eq st info q1 hq1
  have hq1id : q1.id
      = (clientDumpAdjust (st.game.players.getD st.ownedIdx (newPlayer 0)).dump_info).id := by
    rcases loadFold_ids_ext info.players st.game.players with ⟨ext, hext⟩
    have h1 : (idsOf (loadFold st.game.players info.players)).get? st.ownedIdx
        = (idsOf st.game.players).get? st.ownedIdx := by
      rw [hext]
      exact lget_append _ _ _ (by simpa [idsOf] using h)
    have h2 : (idsOf (loadFold st.game.players info.players)).get? st.ownedIdx
        = some q1.id := by
      show ((loadFold st.game.players info.players).map Player.id).get? st.ownedIdx
          = some q1.id
      rw [lget_map, hq1]
      rfl
    have h3 : (idsOf st.game.players).get? st.ownedIdx = some ow.id := by
      show (st.game.players.map Player.id).get? st.ownedIdx = some ow.id
      rw [lget_map, how]
      rfl
    have h4 : q1.id = ow.id := by
      have h0 := h2.symm.trans (h1.trans h3)
      injection h0
    rw [h4, adjust_id, howD]
    rfl
  have hset := loadFold_set_cases info.players (loadFold st.game.players info.players)
      st.ownedIdx q1
      (clientDumpAdjust (st.game.players.getD st.ownedIdx (newPlayer 0)).dump_info) hq1 hq1id
  have hidem := loadFold_idem info.players st.game.players
  rw [hA]
  rcases hset with hcase | ⟨_, hcase, _⟩
  · -- the second merge converges to the first merge's list
    have hq2 : (loadFold ((loadFold st.game.players info.players).set st.ownedIdx
        (q1.load_info (clientDumpAdjust
          (st.game.players.getD st.ownedIdx (newPlayer 0)).dump_info))) info.players).get?
          st.ownedIdx = some q1 := by
      rw [hcase, hidem]
      exact hq1
    have hB := clientHandleSend_eq
      { game := { players := (loadFold st.game.players info.players).set st.ownedIdx
                    (q1.load_info (clientDumpAdjust
                      (st.game.players.getD st.ownedIdx (newPlayer 0)).dump_info))
                  bullets := info.bullets.map loadBulletFromInfo }
        ownedIdx := st.ownedIdx } info q1 hq2
    rw [hB]
    have hD : clientDumpAdjust
        ((((loadFold st.game.players info.players).set st.ownedIdx
          (q1.load_info (clientDumpAdjust
            (st.game.players.getD st.ownedIdx (newPlayer 0)).dump_info))).getD st.ownedIdx
          (newPlayer 0)).dump_info)
        = clientDumpAdjust (st.game.players.getD st.ownedIdx (newPlayer 0)).dump_info := by
      rw [lgetD_of_get _ _ _ _ (lget_set_self _ _ _ hlt), dump_load, adjust_adjust]
    rw [hD, hcase, hidem]
  · -- the second merge keeps the overwritten slot; loading again collapses
    have hfold : loadFold ((loadFold st.game.players info.players).set st.ownedIdx
        (q1.load_info (clientDumpAdjust
          (st.game.players.getD st.ownedIdx (newPlayer 0)).dump_info))) info.players
        = (loadFold st.game.players info.players).set st.ownedIdx
          (q1.load_info (clientDumpAdjust
            (st.game.players.getD st.ownedIdx (newPlayer 0)).dump_info)) := by
      rw [hcase, hidem]
    have hq2 : (loadFold ((loadFold st.game.players info.players).set st.ownedIdx
        (q1.load_info (clientDumpAdjust
          (st.game.players.getD st.ownedIdx (newPlayer 0)).dump_info))) info.players).get?
          st.ownedIdx
        = some (q1.load_info (clientDumpAdjust
            (st.game.players.getD st.ownedIdx (newPlayer 0)).dump_info)) := by
      rw [hfold]
      exact lget_set_self _ _ _ hlt
    have hB := clientHandleSend_eq
      { game := { players := (loadFold st.game.players info.players).set st.ownedIdx
                    (q1.load_info (clientDumpAdjust
                      (st.game.players.getD st.ownedIdx (newPlayer 0)).dump_info))
                  bullets := info.bullets.map loadBulletFromInfo }
        ownedIdx := st.ownedIdx } info
      (q1.load_info (clientDumpAdjust
        (st.game.players.getD st.ownedIdx (newPlayer 0)).dump_info)) hq2
    rw [hB]
    have hD : clientDumpAdjust
        ((((loadFold st.game.players info.players).set st.ownedIdx
          (q1.load_info (clientDumpAdjust
            (st.game.players.getD st.ownedIdx (newPlayer 0)).dump_info))).getD st.ownedIdx
          (newPlayer 0)).dump_info)
        = clientDumpAdjust (st.game.players.getD st.ownedIdx (newPlayer 0)).dump_info := by
      rw [lgetD_of_get _ _ _ _ (lget_set_self _ _ _ hlt), dump_load, adjust_adjust]
    rw [hD, hfold, load_load, lset_set]

/-- C8, witness: idempotence at a concrete state and snapshot carrying a
moved echo of the owned player, a new player and a bullet. -/
theorem c8_merge_idempotent_witness :
    clientHandleMessage (clientHandleMessage c8St (Msg.gameInfoSend c8Info))
      (Msg.gameInfoSend c8Info)
      = clientHandleMessage c8St (Msg.gameInfoSend c8Info) :=
  c8_merge_idempotent c8St c8Info (by decide)

/-- C9: over any sequence of accepts and disconnects starting from a
fresh server, the ids assigned at accept time are exactly 0,1,2,... (one
per accept, equal to the connection count at that moment), the registry
length equals the number of accepts (disconnects never remove entries),
and no id is ever assigned twice. -/
theorem c9_ids_never_reused (evs : List SrvEvent) :
    (runEvents initialServer evs).2 = expectedIds 0 (countAccepts evs) ∧
    (runEvents initialServer evs).1.connections.length = countAccepts evs ∧
    ((runEvents initialServer evs).2).Nodup := by
  rcases runEvents_spec evs initialServer with ⟨h1, h2⟩
  refine ⟨h1, ?_, ?_⟩
  · have h2' := h2
    simp [initialServer] at h2'
    exact h2'
  · rw [h1]
    exact expectedIds_nodup _ _

/-- C10: a bullet rebuilt from a dumped snapshot entry (as Game.load_info
does for every projectile) always has start position at the origin,
because dump_info omits start_position and the fresh Bullet is built at
the default zero vector; its traveled distance is therefore measured from
the origin, not from the original firing position. -/
theorem c10_loaded_bullet_origin_start (b : Bullet) :
    (loadBulletFromInfo b.dump_info).start_position = Vec2.zero ∧
    (loadBulletFromInfo b.dump_info).traveledDistSq = distSq Vec2.zero b.position :=
  ⟨rfl, rfl⟩

end MP
